import Mathlib

/-!
# Verification of the TradingView proxy fetch pipeline

Shallow embedding of the repository's Python sources:

* `proxy_pool.py`        — `ProxyLocation`, `ProxyPool`, `OxyLabsProxy`
* `browser_config.py`    — `BrowserFingerprint.generate` and its lookup tables
* `tradingview_proxy.py` — `tradingview_symbol_search` (retry loop, filtering,
  deduplication, field stripping) and its helpers

JSON values are modelled by the inductive `JVal` (objects are ordered
association lists, matching Python dict insertion order).  Python code that
can raise inside the normalizer's `try` block is modelled in
`Except Unit`; the surrounding handler turns any such error into a raw
passthrough of the upstream bytes.  Randomness (`random.choice`,
`random.shuffle`, `random.uniform`) is modelled by explicit oracle
parameters: a stream of naturals for choices/shuffles, and a rational-valued
stream for jitter durations.
-/

set_option maxRecDepth 4096

namespace TVProxy

/-- JSON values as parsed by Python's `json` module; objects keep key order. -/
inductive JVal where
  | null : JVal
  | bool : Bool → JVal
  | num : Int → JVal
  | str : String → JVal
  | arr : List JVal → JVal
  | obj : List (String × JVal) → JVal

mutual

/-- Structural equality test on JSON values (Python `==` on our model). -/
def jbeq : JVal → JVal → Bool
  | .null, .null => true
  | .bool a, .bool b => a == b
  | .num a, .num b => a == b
  | .str a, .str b => a == b
  | .arr a, .arr b => jbeqList a b
  | .obj a, .obj b => jbeqObj a b
  | _, _ => false

def jbeqList : List JVal → List JVal → Bool
  | [], [] => true
  | a :: as, b :: bs => jbeq a b && jbeqList as bs
  | _, _ => false

def jbeqObj : List (String × JVal) → List (String × JVal) → Bool
  | [], [] => true
  | a :: as, b :: bs => (a.1 == b.1 && jbeq a.2 b.2) && jbeqObj as bs
  | _, _ => false

end

instance : BEq JVal := ⟨jbeq⟩

/-- Python truthiness of a JSON value (`bool(v)`). -/
def truthy : JVal → Bool
  | .null => false
  | .bool b => b
  | .num n => n != 0
  | .str s => s != ""
  | .arr l => !l.isEmpty
  | .obj l => !l.isEmpty

/-- Python `hash(v)` succeeds exactly on immutable scalars (our model). -/
def hashable : JVal → Bool
  | .null => true
  | .bool _ => true
  | .num _ => true
  | .str _ => true
  | .arr _ => false
  | .obj _ => false

/-- `d.get(k)` on a dict modelled as a first-match association-list lookup. -/
def jget (kvs : List (String × JVal)) (k : String) : Option JVal :=
  match kvs.find? (fun kv => kv.1 == k) with
  | some kv => some kv.2
  | none => none

/-- ASCII-level model of Python's `str.lower()`. -/
def pyLower (s : String) : String :=
  String.mk (s.toList.map Char.toLower)

/-- Lower-case hexadecimal digit, used by the `\uXXXX` escapes of `json.dumps`. -/
def hexDigit (n : Nat) : Char :=
  "0123456789abcdef".toList.getD n '0'

/-- Four-digit hexadecimal rendering of `n % 0x10000`. -/
def hex4 (n : Nat) : String :=
  String.mk [hexDigit (n / 4096 % 16), hexDigit (n / 256 % 16),
             hexDigit (n / 16 % 16), hexDigit (n % 16)]

/-- Escaping of one character exactly as `json.dumps` (default `ensure_ascii=True`)
does: printable ASCII other than `"` and `\` is literal, the usual short escapes
apply, everything else becomes `\uXXXX` (with surrogate pairs above U+FFFF). -/
def jsonEscChar (c : Char) : String :=
  if c = '"' then "\\\""
  else if c = '\\' then "\\\\"
  else if c = '\n' then "\\n"
  else if c = '\r' then "\\r"
  else if c = '\t' then "\\t"
  else if c.toNat = 8 then "\\b"
  else if c.toNat = 12 then "\\f"
  else if c.toNat < 32 || 127 ≤ c.toNat then
    if c.toNat ≥ 65536 then
      let m := c.toNat - 65536
      "\\u" ++ hex4 (55296 + m / 1024) ++ "\\u" ++ hex4 (56320 + m % 1024)
    else "\\u" ++ hex4 c.toNat
  else String.singleton c

/-- JSON string literal as produced by `json.dumps`. -/
def jsonQuote (s : String) : String :=
  "\"" ++ String.join (s.toList.map jsonEscChar) ++ "\""

mutual

/-- `json.dumps` with its default separators `", "` and `": "`; since
`ensure_ascii=True` the output is pure ASCII. -/
def dumps : JVal → String
  | .null => "null"
  | .bool true => "true"
  | .bool false => "false"
  | .num n => toString n
  | .str s => jsonQuote s
  | .arr l => "[" ++ dumpsList l ++ "]"
  | .obj kvs => "\x7b" ++ dumpsObj kvs ++ "\x7d"

def dumpsList : List JVal → String
  | [] => ""
  | [x] => dumps x
  | x :: y :: rest => dumps x ++ ", " ++ dumpsList (y :: rest)

def dumpsObj : List (String × JVal) → String
  | [] => ""
  | [(k, v)] => jsonQuote k ++ ": " ++ dumps v
  | (k, v) :: kv :: rest => jsonQuote k ++ ": " ++ dumps v ++ ", " ++ dumpsObj (kv :: rest)

end

/-- The bytes of `s.encode("utf-8")` for an ASCII string, one natural per byte.
`dumps` output is always ASCII, so this is its exact byte encoding. -/
def asciiBytes (s : String) : List Nat :=
  s.toList.map Char.toNat

mutual

/-- Python `repr(v)` on our JSON model (string escaping elided; containers
render with brackets/braces, so a container never collides with a plain
keyword such as `"spot"`). -/
def pyRepr : JVal → String
  | .null => "None"
  | .bool true => "True"
  | .bool false => "False"
  | .num n => toString n
  | .str s => "'" ++ s ++ "'"
  | .arr l => "[" ++ pyReprList l ++ "]"
  | .obj kvs => "\x7b" ++ pyReprObj kvs ++ "\x7d"

def pyReprList : List JVal → String
  | [] => ""
  | [x] => pyRepr x
  | x :: y :: rest => pyRepr x ++ ", " ++ pyReprList (y :: rest)

def pyReprObj : List (String × JVal) → String
  | [] => ""
  | [(k, v)] => "'" ++ k ++ "': " ++ pyRepr v
  | (k, v) :: kv :: rest => "'" ++ k ++ "': " ++ pyRepr v ++ ", " ++ pyReprObj (kv :: rest)

end

/-- Python `str(v)`: identity on strings, `repr`-like elsewhere. -/
def pyStr : JVal → String
  | .str s => s
  | .null => "None"
  | .bool true => "True"
  | .bool false => "False"
  | .num n => toString n
  | .arr l => "[" ++ pyReprList l ++ "]"
  | .obj kvs => "\x7b" ++ pyReprObj kvs ++ "\x7d"

/-! ## Result Normalizer (`tradingview_proxy.py`)

Everything below runs inside the `try:` block of `tradingview_symbol_search`;
a raised exception is modelled as `Except.error ()` and is turned into a raw
passthrough by `processSuccess` (mirroring the `except Exception:` handler). -/

/-- `item.get("typespecs") or item.get("typeSpecs") or []`: Python `or`
falls through on a missing key (`None`) and on any falsy present value. -/
def tsOf (kvs : List (String × JVal)) : JVal :=
  match jget kvs "typespecs" with
  | some v =>
    if truthy v then v else
      match jget kvs "typeSpecs" with
      | some w => if truthy w then w else .arr []
      | none => .arr []
  | none =>
      match jget kvs "typeSpecs" with
      | some w => if truthy w then w else .arr []
      | none => .arr []

/-- Python iteration `for s in v`: lists yield elements, strings yield their
characters, dicts yield their keys; other values raise `TypeError`. -/
def iterElems : JVal → Except Unit (List JVal)
  | .arr l => .ok l
  | .str s => .ok (s.toList.map (fun c => .str (String.singleton c)))
  | .obj kvs => .ok (kvs.map (fun kv => .str kv.1))
  | _ => .error ()

/-- `[s.lower() for s in ts if isinstance(s, str)]` applied to the item's
`typespecs` value. -/
def tsLowerE (kvs : List (String × JVal)) : Except Unit (List String) :=
  (iterElems (tsOf kvs)).map fun l =>
    l.filterMap fun v => match v with
      | .str s => some (pyLower s)
      | _ => none

/-- `"crypto" in ts_lower` for the item. -/
def hasCryptoE (kvs : List (String × JVal)) : Except Unit Bool :=
  (tsLowerE kvs).map fun l => l.contains "crypto"

/-- `str(item.get("type", "")).lower()`. -/
def typeLower (kvs : List (String × JVal)) : String :=
  pyLower (pyStr ((jget kvs "type").getD (.str "")))

/-- The `keep` predicate of `tradingview_symbol_search`: categories
index/forex/stock keep non-crypto items, spot keeps crypto items, every
other category is discarded.  `ts_lower` is computed before the branch, so a
non-iterable `typespecs` raises for every category. -/
def keepE (kvs : List (String × JVal)) : Except Unit Bool := do
  let t := typeLower kvs
  let hc ← hasCryptoE kvs
  if t = "index" ∨ t = "forex" ∨ t = "stock" then pure (!hc)
  else if t = "spot" then pure hc
  else pure false

/-- The provenance-only keys removed by `_strip_tv_fields`. -/
def removeKeys : List String := ["provider_id", "source_logoid", "source2", "source_id"]

/-- Assignment `d[k] = v` on a Python dict: replaces the value at an existing
key in place, appends at the end otherwise. -/
def setKey : List (String × JVal) → String → JVal → List (String × JVal)
  | [], k, v => [(k, v)]
  | kv :: rest, k, v => if kv.1 = k then (k, v) :: rest else kv :: setKey rest k v

/-- `cleaned.get("type") == "spot"`: true exactly when the value is the
string `"spot"` (comparing `None` or a non-string to `"spot"` is `False`). -/
def isSpotType : Option JVal → Bool
  | some (.str s) => s == "spot"
  | _ => false

/-- `_strip_tv_fields` on a dict item: drop the provenance keys, then rewrite
`type` to `"crypto"` when it equals `"spot"` and the (cleaned) item carries a
crypto marker.  (The pipeline only ever passes dicts to it, so the
`isinstance` early return is not modelled.) -/
def stripE (kvs : List (String × JVal)) : Except Unit (List (String × JVal)) := do
  let cleaned := kvs.filter fun kv => !(removeKeys.contains kv.1)
  if isSpotType (jget cleaned "type") then do
      let hc ← hasCryptoE cleaned
      if hc then pure (setKey cleaned "type" (.str "crypto")) else pure cleaned
  else pure cleaned

/-- `[x for x in data if isinstance(x, dict) and keep(x)]`. -/
def filterKeptE : List JVal → Except Unit (List (List (String × JVal)))
  | [] => .ok []
  | x :: rest =>
    match x with
    | .obj kvs => do
        let b ← keepE kvs
        let r ← filterKeptE rest
        pure (if b then kvs :: r else r)
    | _ => filterKeptE rest

/-- `item.get("symbol")` (`None`, i.e. `JVal.null`, when the key is absent). -/
def symOf (it : List (String × JVal)) : JVal :=
  (jget it "symbol").getD .null

/-- The dedupe loop: `seen` is the set of symbols already emitted, `acc` the
emitted items in reverse.  `sym and sym not in seen` skips falsy symbols and
raises `TypeError` on an unhashable truthy symbol. -/
def dedupeGo : List (List (String × JVal)) → List JVal → List (List (String × JVal)) →
    Except Unit (List (List (String × JVal)))
  | [], _, acc => .ok acc.reverse
  | it :: rest, seen, acc =>
    let sym := symOf it
    if truthy sym then
      if hashable sym then
        if seen.contains sym then dedupeGo rest seen acc
        else dedupeGo rest (sym :: seen) (it :: acc)
      else .error ()
    else dedupeGo rest seen acc

/-- Dedupe-by-symbol over the filtered items, in original order. -/
def dedupeE (l : List (List (String × JVal))) : Except Unit (List (List (String × JVal))) :=
  dedupeGo l [] []

/-- filter → dedupe → strip, exactly the order of `tradingview_symbol_search`. -/
def pipelineE (l : List JVal) : Except Unit (List (List (String × JVal))) := do
  let filtered ← filterKeptE l
  let deduped ← dedupeE filtered
  deduped.mapM stripE

/-- Normalization of a parsed payload: a bare list or a dict with a list-valued
`"symbols"` key is filtered/deduped/stripped and re-serialized with content
type `"application/json"`; any other shape passes the raw bytes and original
content type through. -/
def normalizePayload (data : JVal) (rawContent : List Nat) (ct : String) :
    Except Unit (List Nat × String) :=
  match data with
  | .arr l => do
      let items ← pipelineE l
      pure (asciiBytes (dumps (.arr (items.map .obj))), "application/json")
  | .obj kvs =>
    match jget kvs "symbols" with
    | some (.arr syms) => do
        let items ← pipelineE syms
        pure (asciiBytes (dumps (.obj (setKey kvs "symbols" (.arr (items.map .obj))))),
              "application/json")
    | _ => pure (rawContent, ct)
  | _ => pure (rawContent, ct)

/-- One upstream HTTP response; `parsed` is the result of `resp.json()`
(`none` models a JSON parse failure), `text` the decoded body used for
diagnostics, `content` the raw body bytes. -/
structure UpstreamResponse where
  status : Nat
  text : String
  content : List Nat
  contentTypeHeader : Option String
  parsed : Option JVal

/-- `resp.headers.get("content-type", "application/json")`. -/
def responseContentType (r : UpstreamResponse) : String :=
  r.contentTypeHeader.getD "application/json"

/-- The 2xx branch of `tradingview_symbol_search`: normalize when possible,
otherwise (parse failure, unrecognized shape, or any exception raised during
normalization) return the raw bytes with the original content type. -/
def processSuccess (r : UpstreamResponse) : List Nat × String :=
  let ct := responseContentType r
  match r.parsed with
  | none => (r.content, ct)
  | some d =>
    match normalizePayload d r.content ct with
    | .ok out => out
    | .error _ => (r.content, ct)

/-! ## Search Executor (`tradingview_symbol_search` control flow)

The per-attempt network outcome is an oracle `outcomes : Nat → AttemptResult`
(attempt index ↦ what the upstream interaction produced: either a response or
a raised transport exception), and the jitter values drawn by
`random.uniform(0.25, 0.8)` are an oracle `jit : Nat → ℚ` (seconds). -/

/-- What one attempt's upstream interaction yields. -/
inductive AttemptResult where
  | response (r : UpstreamResponse)
  | exc (msg : String)

/-- The diagnostic string recorded in `last_error` for a failed attempt:
`f"{resp.status_code} {resp.text[:200]}"` for a non-2xx response, `str(e)`
for an exception. -/
def diagOf : AttemptResult → String
  | .response r => toString r.status ++ " " ++ r.text.take 200
  | .exc m => m

/-- `200 <= resp.status_code < 300`. -/
def isSuccessStatus (s : Nat) : Bool := 200 ≤ s && 300 > s

/-- An attempt is a Retryable Failure when it is an exception or a non-2xx
response. -/
def retryable : AttemptResult → Prop
  | .response r => ¬ isSuccessStatus r.status = true
  | .exc _ => True

instance : DecidablePred retryable := fun o => by
  cases o with
  | response r => exact inferInstanceAs (Decidable ¬_)
  | exc m => exact inferInstanceAs (Decidable True)

/-- `f"...{last_error}"` when `last_error` may still be `None`. -/
def fstrOpt : Option String → String
  | some s => s
  | none => "None"

/-- The `for _ in range(attempts)` loop of `tradingview_symbol_search`.
Arguments: remaining iterations, absolute attempt index, `last_error`, and
the jitter delays slept so far.  Returns the result (success payload or the
raised `TradingViewProxyError` message), the number of attempts performed,
and the list of jitter delays in order.  Both failure branches of the source
sleep a jitter and `continue`, including on the final iteration. -/
def searchLoop (outcomes : Nat → AttemptResult) (jit : Nat → ℚ) :
    Nat → Nat → Option String → List ℚ →
    Except String (List Nat × String) × Nat × List ℚ
  | 0, _, lastError, delays =>
      (.error ("TradingView search failed after retries: " ++ fstrOpt lastError), 0, delays)
  | rem + 1, idx, _, delays =>
    match outcomes idx with
    | .response r =>
      if isSuccessStatus r.status then
        (.ok (processSuccess r), 1, delays)
      else
        let step := searchLoop outcomes jit rem (idx + 1)
          (some (diagOf (.response r))) (delays ++ [jit idx])
        (step.1, step.2.1 + 1, step.2.2)
    | .exc m =>
        let step := searchLoop outcomes jit rem (idx + 1)
          (some m) (delays ++ [jit idx])
        (step.1, step.2.1 + 1, step.2.2)

/-- Whole-call control flow of `tradingview_symbol_search`. -/
def tradingviewSymbolSearch (outcomes : Nat → AttemptResult) (jit : Nat → ℚ)
    (attempts : Nat) : Except String (List Nat × String) × Nat × List ℚ :=
  searchLoop outcomes jit attempts 0 none []

/-- `dict.setdefault(k, v)` on an insertion-ordered mapping: no-op when the
key is present, append otherwise. -/
def setdefault (p : List (String × String)) (k v : String) : List (String × String) :=
  if (p.lookup k).isSome then p else p ++ [(k, v)]

/-- `params = dict(params); params.setdefault("lang", "en");
params.setdefault("limit", "50")`. -/
def paramsWithDefaults (p : List (String × String)) : List (String × String) :=
  setdefault (setdefault p "lang" "en") "limit" "50"

/-! ## Proxy Selector (`proxy_pool.py`) -/

/-- `ProxyLocation` of `proxy_pool.py`; the constructor lower-cases its
arguments, which `mkProxyLocation` mirrors. -/
structure PLoc where
  state : String
  city : Option String
  deriving DecidableEq

/-- `ProxyLocation.__init__`. -/
def mkProxyLocation (state : String) (city : Option String := none) : PLoc :=
  ⟨pyLower state, city.map pyLower⟩

/-- `ProxyLocation.__str__`: the canonical string `us-<state>[-<city>]`. -/
def locStr (l : PLoc) : String :=
  match l.city with
  | some c => "us-" ++ l.state ++ "-" ++ c
  | none => "us-" ++ l.state

/-- The fixed `ProxyPool.LOCATIONS` catalog. -/
def LOCATIONS : List PLoc :=
  [ mkProxyLocation "ca" (some "losangeles"),
    mkProxyLocation "ca" (some "sanfrancisco"),
    mkProxyLocation "ca" (some "sandiego"),
    mkProxyLocation "wa" (some "seattle"),
    mkProxyLocation "or" (some "portland"),
    mkProxyLocation "ny" (some "newyork"),
    mkProxyLocation "ma" (some "boston"),
    mkProxyLocation "dc" (some "washington"),
    mkProxyLocation "fl" (some "miami"),
    mkProxyLocation "ga" (some "atlanta"),
    mkProxyLocation "il" (some "chicago"),
    mkProxyLocation "tx" (some "austin"),
    mkProxyLocation "tx" (some "dallas"),
    mkProxyLocation "co" (some "denver"),
    mkProxyLocation "nv" (some "lasvegas"),
    mkProxyLocation "az" (some "phoenix"),
    mkProxyLocation "pa" (some "philadelphia"),
    mkProxyLocation "tx" (some "houston"),
    mkProxyLocation "oh" (some "columbus"),
    mkProxyLocation "mi" (some "detroit") ]

/-- Mutable state of a `ProxyPool` instance. -/
structure PoolSt where
  currentIndex : Nat
  usedLocations : List String

/-- Fresh `ProxyPool.__init__` state. -/
def freshPool : PoolSt := ⟨0, []⟩

/-- Placeholder for the (never-taken) out-of-range list access. -/
def defaultLoc : PLoc := ⟨"", none⟩

/-- `ProxyPool.get_next_location` over catalog `cat`: return
`LOCATIONS[current_index]`, advance the cursor modulo the catalog length. -/
def getNextLocation (cat : List PLoc) (s : PoolSt) : PLoc × PoolSt :=
  (cat.getD s.currentIndex defaultLoc,
   { s with currentIndex := (s.currentIndex + 1) % cat.length })

/-- Pool state after `n` round-robin calls from a fresh pool. -/
def nextIter (cat : List PLoc) : Nat → PoolSt
  | 0 => freshPool
  | n + 1 => (getNextLocation cat (nextIter cat n)).2

/-- The location returned by the `n`-th (0-indexed) round-robin call. -/
def nthNextLocation (cat : List PLoc) (n : Nat) : PLoc :=
  (getNextLocation cat (nextIter cat n)).1

/-- `set.add` on the recently-used set (modelled as a duplicate-free list). -/
def addStr (s : List String) (x : String) : List String :=
  if s.contains x then s else x :: s

/-- `ProxyPool.get_random_location`, with `random.choice(available)` modelled
by an oracle index `choice` (reduced modulo the candidate count): compute the
candidates not recently used; when none remain, clear the recently-used set
and fall back to the full catalog; pick, mark used, return.  The returned
`Bool` records whether the clearing branch ran. -/
def getRandomLocation (cat : List PLoc) (choice : Nat) (s : PoolSt) :
    PLoc × PoolSt × Bool :=
  let available := cat.filter fun loc => !(s.usedLocations.contains (locStr loc))
  let reset := available.isEmpty
  let used := if reset then [] else s.usedLocations
  let avail := if reset then cat else available
  let loc := avail.getD (choice % avail.length) defaultLoc
  (loc, { s with usedLocations := addStr used (locStr loc) }, reset)

/-- Pool state after `n` randomized calls from a fresh pool, drawing the
`k`-th pick from the oracle `choice k`. -/
def randIter (cat : List PLoc) (choice : Nat → Nat) : Nat → PoolSt
  | 0 => freshPool
  | n + 1 => (getRandomLocation cat (choice n) (randIter cat choice n)).2.1

/-- Location returned by the `n`-th randomized call. -/
def nthRandLocation (cat : List PLoc) (choice : Nat → Nat) (n : Nat) : PLoc :=
  (getRandomLocation cat (choice n) (randIter cat choice n)).1

/-- Whether the `n`-th randomized call took the clear-and-reset branch. -/
def resetAt (cat : List PLoc) (choice : Nat → Nat) (n : Nat) : Bool :=
  (getRandomLocation cat (choice n) (randIter cat choice n)).2.2

/-! ## Fingerprint Generator (`browser_config.py`)

Randomness (`random.choice`, `random.shuffle`) is modelled by a stream of
naturals consumed left to right: each `random.choice(lst)` takes one natural
`n` and yields `lst[n % len(lst)]`, and `random.shuffle` runs Fisher–Yates
taking one natural per swap position.  The current-time UTC offset
(`datetime.now(pytz.timezone(tz)).strftime("%z")`) is an oracle
`tzOff : String → String`. -/

/-- `browser_config.ProxyLocation` (a plain dataclass; unlike the pool's
class it does not lower-case its fields). -/
structure BFLoc where
  state : String
  country : String := "US"

/-- An entry of `BrowserFingerprint.OS_CONFIGS`. -/
structure OsConfig where
  os : String
  versions : List String
  platform : String

def OS_CONFIGS : List OsConfig :=
  [ ⟨"Windows", ["10.0", "11.0"], "Win64; x64"⟩,
    ⟨"Macintosh", ["10_15_7", "11_0_0", "12_0_0", "13_0_0"], "Intel Mac OS X"⟩ ]

def defaultOsConfig : OsConfig := ⟨"", [], ""⟩

def CHROME_VERSIONS : List String :=
  ["120.0.0.0", "119.0.0.0", "118.0.0.0", "117.0.0.0", "116.0.0.0", "115.0.0.0"]

def RESOLUTIONS : List (Nat × Nat) :=
  [(1920, 1080), (1366, 768), (1536, 864), (1440, 900), (1280, 720), (1600, 900)]

def TIMEZONE_MAP : List (String × String) :=
  [ ("ny", "America/New_York"), ("nj", "America/New_York"),
    ("ca", "America/Los_Angeles"), ("wa", "America/Los_Angeles"),
    ("tx", "America/Chicago"), ("fl", "America/New_York"),
    ("il", "America/Chicago"), ("az", "America/Phoenix"),
    ("ga", "America/New_York") ]

def LOCALE_MAP : List (String × String) :=
  [ ("ca", "en-CA"), ("fl", "en-US"), ("tx", "en-US"), ("ny", "en-US"),
    ("nj", "en-US"), ("wa", "en-US"), ("il", "en-US"), ("az", "en-US"),
    ("ga", "en-US") ]

/-- The locale resolved on line 99 of `browser_config.py`
(`LOCALE_MAP.get(state.lower(), "en-US")`).  `generate` computes this value
but never places it in any field of the returned fingerprint. -/
def localeFor (state : String) : String :=
  (LOCALE_MAP.lookup (pyLower state)).getD "en-US"

/-- `random.choice(l)` driven by the oracle stream: consume one natural. -/
def pick {α : Type} (l : List α) (d : α) (r : List Nat) : α × List Nat :=
  (l.getD (r.headD 0 % l.length) d, r.tail)

/-- Swap the entries of a string list at positions `i` and `j`. -/
def swapL (l : List String) (i j : Nat) : List String :=
  (l.set i (l.getD j "")).set j (l.getD i "")

/-- Fisher–Yates loop of `random.shuffle`: for `i` from `len-1` down to `1`,
draw `j` uniformly from `[0, i]` and swap positions `i` and `j`. -/
def shuffleGo (l : List String) (r : List Nat) : Nat → List String × List Nat
  | 0 => (l, r)
  | k + 1 => shuffleGo (swapL l (k + 1) (r.headD 0 % (k + 2))) r.tail k

/-- `random.shuffle(l)` driven by the oracle stream. -/
def pyShuffle (l : List String) (r : List Nat) : List String × List Nat :=
  shuffleGo l r (l.length - 1)

/-- The q-weight strings `f"{1.0-i*0.1:.1f}"` for positions in the (always
four-element) shuffled language list; only indices 0–3 ever occur. -/
def qWeight (i : Nat) : String :=
  ["1.0", "0.9", "0.8", "0.7"].getD i "0.0"

/-- `",".join(f"{lang};q={1.0-i*0.1:.1f}" for i, lang in enumerate(languages))`. -/
def acceptLanguageOf (langs : List String) : String :=
  String.intercalate "," (langs.enum.map fun p => p.2 ++ ";q=" ++ qWeight p.1)

def eastCoastViewports : List (Nat × Nat) := [(1366, 768), (1440, 900), (1280, 720)]

def westCoastViewports : List (Nat × Nat) := [(1920, 1080), (1536, 864), (1600, 900)]

/-- `BrowserFingerprint._get_geographic_viewport`. -/
def getGeographicViewport (loc : BFLoc) (r : List Nat) : (Nat × Nat) × List Nat :=
  if pyLower loc.state ∈ ["ny", "nj", "fl", "ga"] then pick eastCoastViewports (0, 0) r
  else if pyLower loc.state ∈ ["ca", "wa"] then pick westCoastViewports (0, 0) r
  else pick RESOLUTIONS (0, 0) r

/-- The fingerprint dictionary returned by `BrowserFingerprint.generate`
(header keys `accept-language`, `sec-ch-ua-timezone`, `cookie` are always
present; the fixed `evaluateOnNewDocument` script list carries no
location-dependent data and is not modelled). -/
structure Fingerprint where
  userAgent : String
  viewport : Nat × Nat
  acceptLanguage : String
  secChUaTimezone : String
  cookie : String
  timezoneId : String

/-- `BrowserFingerprint.generate`: timezone and (unused) locale lookups,
random OS/version/browser-version picks, the OS-dependent user-agent
template, geographic viewport, and the shuffled Accept-Language header. -/
def BrowserFingerprint.generate (loc : BFLoc) (tzOff : String → String)
    (r : List Nat) : Fingerprint × List Nat :=
  let timezone := (TIMEZONE_MAP.lookup (pyLower loc.state)).getD "America/Chicago"
  let _locale := localeFor loc.state
  let offset := tzOff timezone
  let (osConfig, r1) := pick OS_CONFIGS defaultOsConfig r
  let (osVersion, r2) := pick osConfig.versions "" r1
  let (chromeVersion, r3) := pick CHROME_VERSIONS "" r2
  let ua :=
    (if osConfig.os = "Windows" then
      "Mozilla/5.0 (" ++ osConfig.os ++ " NT " ++ osVersion ++ "; " ++ osConfig.platform ++ ") "
    else
      "Mozilla/5.0 (" ++ osConfig.os ++ "; " ++ osConfig.platform ++ " " ++ osVersion ++ ") ")
    ++ "AppleWebKit/537.36 (KHTML, like Gecko) Chrome/" ++ chromeVersion ++ " Safari/537.36"
  let (viewport, r4) := getGeographicViewport loc r3
  let (langs, r5) := pyShuffle ["en-US", "en-GB", "en-CA", "en"] r4
  (⟨ua, viewport, acceptLanguageOf langs, timezone,
    "timezone_offset=" ++ offset ++ ";", timezone⟩, r5)

/-- The first language tag of an Accept-Language value (everything before the
first `;`). -/
def primaryLangTag (al : String) : String :=
  String.mk (al.toList.takeWhile fun c => c ≠ ';')

/-- Whether `sub` occurs as a contiguous sublist of `l`. -/
def listInfix (sub : List Char) : List Char → Bool
  | [] => sub.isEmpty
  | c :: rest => sub.isPrefixOf (c :: rest) || listInfix sub rest

/-- `sub in s` on Python strings. -/
def containsSubstr (s sub : String) : Bool :=
  listInfix sub.toList s.toList

/-- `re.search(r"Chrome/(\d+)", ua)`: the digit run following the first
occurrence of `Chrome/` that is followed by at least one digit. -/
def chromeMajorGo : List Char → Option String
  | [] => none
  | c :: rest =>
    if "Chrome/".toList.isPrefixOf (c :: rest) then
      let ds := ((c :: rest).drop 7).takeWhile Char.isDigit
      if ds.isEmpty then chromeMajorGo rest else some (String.mk ds)
    else chromeMajorGo rest

def chromeMajor (ua : String) : Option String :=
  chromeMajorGo ua.toList

/-- `_infer_client_hints_from_ua` of `tradingview_proxy.py`: returns
(`sec-ch-ua-platform`, `sec-ch-ua`, `sec-ch-ua-mobile`). -/
def inferClientHints (ua : String) : String × String × String :=
  let plat := if containsSubstr ua "Windows" then "\"Windows\""
    else if containsSubstr ua "Macintosh" then "\"macOS\"" else "\"Linux\""
  let major := (chromeMajor ua).getD "120"
  let secChUa := "\"Chromium\";v=\"" ++ major ++ "\", \"Google Chrome\";v=\"" ++ major
    ++ "\", \"Not:A-Brand\";v=\"99\""
  (plat, secChUa, "?0")

/-! ## Specification-side characterizations and concrete inputs -/

/-- Shapes the normalizer does not recognize: neither a bare list nor a dict
whose `"symbols"` value is a list. -/
def unrecognizedShape (d : JVal) : Prop :=
  (∀ l, d ≠ .arr l) ∧ ∀ kvs, d = .obj kvs → ∀ syms, jget kvs "symbols" ≠ some (.arr syms)

/-- First-occurrence characterization of deduplication: walk the items in
order, keeping an item exactly when its symbol is truthy and no earlier item
(kept or not) carries an equal truthy symbol; `pre` is the list of items
already walked. -/
def firstOccGo (pre : List (List (String × JVal))) :
    List (List (String × JVal)) → List (List (String × JVal))
  | [] => []
  | it :: rest =>
    if truthy (symOf it) && !(pre.any fun p => truthy (symOf p) && jbeq (symOf it) (symOf p))
    then it :: firstOccGo (pre ++ [it]) rest
    else firstOccGo (pre ++ [it]) rest

/-- First occurrences of each distinct symbol, from the start of the list. -/
def firstOccurrences (l : List (List (String × JVal))) : List (List (String × JVal)) :=
  firstOccGo [] l

/-- The symbol of a payload entry (a dict's symbol; `None` otherwise). -/
def itemSym : JVal → JVal
  | .obj kvs => symOf kvs
  | _ => .null

/-- `{symbol:"AAPL", type:"stock", typespecs:[]}` from the spec's filter example. -/
def aaplItem : List (String × JVal) :=
  [("symbol", .str "AAPL"), ("type", .str "stock"), ("typespecs", .arr [])]

/-- `{symbol:"BTC", type:"spot", typespecs:["crypto"]}` from the spec's filter example. -/
def btcItem : List (String × JVal) :=
  [("symbol", .str "BTC"), ("type", .str "spot"), ("typespecs", .arr [.str "crypto"])]

/-- `{symbol:"ETHX", type:"spot", typespecs:[]}` from the spec's filter example. -/
def ethxItem : List (String × JVal) :=
  [("symbol", .str "ETHX"), ("type", .str "spot"), ("typespecs", .arr [])]

/-- The normalizer's own output on `[btcItem]`: the spot item with its type
rewritten to `"crypto"`. -/
def btcCryptoItem : List (String × JVal) :=
  [("symbol", .str "BTC"), ("type", .str "crypto"), ("typespecs", .arr [.str "crypto"])]

/-- Two items sharing the symbol `"X"` and differing in a provenance field. -/
def dupFirstItem : List (String × JVal) := [("symbol", .str "X"), ("provider_id", .str "p1")]

def dupSecondItem : List (String × JVal) := [("symbol", .str "X"), ("provider_id", .str "p2")]

/-- A concrete always-failing upstream outcome: HTTP 500 with body `error body`. -/
def fail500 : AttemptResult :=
  .response ⟨500, "error body", [9, 9], some "text/html", none⟩

def constFailOutcomes : Nat → AttemptResult := fun _ => fail500

/-- A concrete admissible jitter draw (300 ms). -/
def constJitter : Nat → ℚ := fun _ => 3 / 10

/-- A concrete 2xx response whose body is not parseable JSON. -/
def okUnparseable : UpstreamResponse := ⟨200, "ok", [60, 104, 62], some "text/html", none⟩

/-- An item with no symbol field at all. -/
def noSymItem : List (String × JVal) := [("type", .str "stock")]

/-- An item in the shape the normalizer itself emits for the kept non-spot
categories: category (case-insensitively) index/forex/stock, markers
evaluable with no crypto marker, a truthy hashable symbol, and no
provenance-only fields. -/
def normalizedItem (kvs : List (String × JVal)) : Prop :=
  (typeLower kvs = "index" ∨ typeLower kvs = "forex" ∨ typeLower kvs = "stock") ∧
  hasCryptoE kvs = .ok false ∧
  truthy (symOf kvs) = true ∧
  hashable (symOf kvs) = true ∧
  ∀ kv ∈ kvs, kv.1 ∉ removeKeys

/-- A bare-list payload all of whose entries are normalized items with
pairwise distinct symbols. -/
def normalizedPayloadL (l : List JVal) : Prop :=
  (∀ x ∈ l, ∃ kvs, x = .obj kvs ∧ normalizedItem kvs) ∧ (l.map itemSym).Nodup

/-- Executable form of the C10 safety property of a user-agent string: it
names Windows or Macintosh, its Chrome major version is extracted (so the
`"120"` fallback is dead) and is one of the six configured majors, and the
inferred client-hint platform is the Windows or macOS token (never Linux). -/
def uaSafe (ua : String) : Bool :=
  (containsSubstr ua "Windows" || containsSubstr ua "Macintosh") &&
  (match chromeMajor ua with
   | some maj => ["120", "119", "118", "117", "116", "115"].contains maj
   | none => false) &&
  ((inferClientHints ua).1 == "\"Windows\"" || (inferClientHints ua).1 == "\"macOS\"")

/-! ## Helper lemmas -/

theorem lookup_append (l l' : List (String × String)) (k : String) :
    (l ++ l').lookup k = match l.lookup k with
      | some v => some v
      | none => l'.lookup k := by
  induction l with
  | nil => simp [List.lookup]
  | cons kv rest ih =>
    obtain ⟨k', v'⟩ := kv
    simp only [List.cons_append, List.lookup]
    cases h : (k == k') <;> simp [h, ih]

/-! ## C9 — query-parameter defaults -/

theorem lookup_setdefault_absent (p : List (String × String)) (k v : String)
    (h : p.lookup k = none) : (setdefault p k v).lookup k = some v := by
  simp [setdefault, h, lookup_append, List.lookup]

theorem lookup_setdefault_present (p : List (String × String)) (k v v' : String)
    (h : p.lookup k = some v') : (setdefault p k v).lookup k = some v' := by
  simp [setdefault, h]

theorem lookup_setdefault_other (p : List (String × String)) (k v k' : String)
    (h : k' ≠ k) : (setdefault p k v).lookup k' = p.lookup k' := by
  unfold setdefault
  split
  · rfl
  · rw [lookup_append]
    have hb : (k' == k) = false := by simp [h]
    cases hc : p.lookup k' <;> simp [List.lookup, hb]

/-- C9: the outbound query parameters are the caller's parameters with
`lang=en` injected iff the caller omitted `lang` and `limit=50` injected iff
the caller omitted `limit`; caller-supplied values for these keys are kept,
and every other key maps exactly as the caller supplied it. -/
theorem search_params_defaults (p : List (String × String)) :
    (p.lookup "lang" = none → (paramsWithDefaults p).lookup "lang" = some "en") ∧
    (∀ v, p.lookup "lang" = some v → (paramsWithDefaults p).lookup "lang" = some v) ∧
    (p.lookup "limit" = none → (paramsWithDefaults p).lookup "limit" = some "50") ∧
    (∀ v, p.lookup "limit" = some v → (paramsWithDefaults p).lookup "limit" = some v) ∧
    (∀ k, k ≠ "lang" → k ≠ "limit" → (paramsWithDefaults p).lookup k = p.lookup k) := by
  refine ⟨?_, ?_, ?_, ?_, ?_⟩
  · intro h
    rw [paramsWithDefaults, lookup_setdefault_other _ _ _ _ (by decide),
      lookup_setdefault_absent _ _ _ h]
  · intro v h
    rw [paramsWithDefaults, lookup_setdefault_other _ _ _ _ (by decide),
      lookup_setdefault_present _ _ _ _ h]
  · intro h
    rw [paramsWithDefaults,
      lookup_setdefault_absent _ _ _ (by rw [lookup_setdefault_other _ _ _ _ (by decide)]; exact h)]
  · intro v h
    rw [paramsWithDefaults,
      lookup_setdefault_present _ _ _ _ (by rw [lookup_setdefault_other _ _ _ _ (by decide)]; exact h)]
  · intro k hk1 hk2
    rw [paramsWithDefaults, lookup_setdefault_other _ _ _ _ hk2,
      lookup_setdefault_other _ _ _ _ hk1]

/-- Witness for C9 at a concrete parameter mapping. -/
theorem search_params_defaults_witness :
    (paramsWithDefaults [("text", "apple")]).lookup "lang" = some "en" :=
  (search_params_defaults [("text", "apple")]).1 rfl

/-! ## C3 — deterministic round-robin selection -/

/-- C3: on a non-empty catalog, the i-th `get_next_location` call (0-indexed,
from a fresh pool) returns the catalog entry at index `i mod N`, the cursor
after `i` calls is `i mod N`, and the access index is always in bounds (the
operation never fails). -/
theorem proxySelector_roundrobin (cat : List PLoc) (hne : cat ≠ []) (i : Nat) :
    nthNextLocation cat i = cat.getD (i % cat.length) defaultLoc ∧
    (nextIter cat i).currentIndex = i % cat.length ∧
    i % cat.length < cat.length := by
  have hpos : 0 < cat.length := List.length_pos.mpr hne
  have hcur : ∀ n, (nextIter cat n).currentIndex = n % cat.length := by
    intro n
    induction n with
    | zero => simp [nextIter, freshPool]
    | succ m ih =>
      simp only [nextIter, getNextLocation, ih]
      conv_rhs => rw [Nat.add_mod]
      rw [Nat.add_mod (m % cat.length) 1, Nat.mod_mod_of_dvd _ dvd_rfl]
  exact ⟨by simp [nthNextLocation, getNextLocation, hcur i], hcur i, Nat.mod_lt _ hpos⟩

/-- Witness for C3: the 21st call on the concrete catalog wraps to index 1. -/
theorem proxySelector_roundrobin_witness :
    nthNextLocation LOCATIONS 21 = LOCATIONS.getD (21 % LOCATIONS.length) defaultLoc :=
  (proxySelector_roundrobin LOCATIONS (by decide) 21).1

/-! ## C7 — malformed-payload passthrough -/

/-- C7: a 2xx response whose body fails JSON parsing, or whose parsed shape is
neither a bare list nor a dict with a list-valued `symbols` field, does not
raise: the attempt succeeds with the raw response bytes and the response's
original content type unchanged. -/
theorem malformed_payload_passthrough (r : UpstreamResponse) (ct : String)
    (hst : isSuccessStatus r.status = true)
    (hct : r.contentTypeHeader = some ct)
    (hshape : r.parsed = none ∨ ∃ d, r.parsed = some d ∧ unrecognizedShape d) :
    processSuccess r = (r.content, ct) ∧
    ∀ jit rem, tradingviewSymbolSearch (fun _ => .response r) jit (rem + 1) =
      (.ok (r.content, ct), 1, []) := by
  have hps : processSuccess r = (r.content, ct) := by
    rcases hshape with hnone | ⟨d, hd, harr, hobj⟩
    · simp [processSuccess, hnone, responseContentType, hct]
    · cases d with
      | arr l => exact absurd rfl (harr l)
      | obj kvs =>
        have hsym : ∀ syms, jget kvs "symbols" ≠ some (.arr syms) := hobj kvs rfl
        simp only [processSuccess, hd, responseContentType, hct, Option.getD_some,
          normalizePayload]
        cases hg : jget kvs "symbols" with
        | none => rfl
        | some v =>
          cases v with
          | arr syms => exact absurd hg (hsym syms)
          | null => rfl
          | bool b => rfl
          | num n => rfl
          | str s => rfl
          | obj o => rfl
      | null => simp only [processSuccess, hd, responseContentType, hct]; rfl
      | bool b => simp only [processSuccess, hd, responseContentType, hct]; rfl
      | num n => simp only [processSuccess, hd, responseContentType, hct]; rfl
      | str s => simp only [processSuccess, hd, responseContentType, hct]; rfl
  refine ⟨hps, fun jit rem => ?_⟩
  simp [tradingviewSymbolSearch, searchLoop, hst, hps]

/-- Witness for C7: a 200 response with an unparseable body passes its bytes
and `text/html` content type through. -/
theorem malformed_payload_passthrough_witness :
    processSuccess okUnparseable = (okUnparseable.content, "text/html") :=
  (malformed_payload_passthrough okUnparseable "text/html" rfl rfl (Or.inl rfl)).1

/-! ## C5 — filter and rewrite correctness -/

/-- C5: the filter keeps an index/forex/stock item iff it lacks a crypto
marker, keeps a spot item iff it has one, and discards every other category
(whenever the marker computation succeeds at all); on the spec's concrete
three-item example, normalization keeps AAPL unchanged, keeps BTC with its
type rewritten to `"crypto"`, and drops ETHX. -/
theorem normalizer_filter_correctness :
    (∀ kvs b, (typeLower kvs = "index" ∨ typeLower kvs = "forex" ∨ typeLower kvs = "stock") →
      hasCryptoE kvs = .ok b → keepE kvs = .ok (!b)) ∧
    (∀ kvs b, typeLower kvs = "spot" → hasCryptoE kvs = .ok b → keepE kvs = .ok b) ∧
    (∀ kvs b, typeLower kvs ≠ "index" → typeLower kvs ≠ "forex" → typeLower kvs ≠ "stock" →
      typeLower kvs ≠ "spot" → hasCryptoE kvs = .ok b → keepE kvs = .ok false) ∧
    (∀ raw ct, normalizePayload (.arr [.obj aaplItem, .obj btcItem, .obj ethxItem]) raw ct =
      .ok (asciiBytes (dumps (.arr [.obj aaplItem, .obj btcCryptoItem])), "application/json")) := by
  refine ⟨?_, ?_, ?_, fun raw ct => rfl⟩
  · intro kvs b htl hhc
    rcases htl with h | h | h <;> simp [keepE, hhc, h, Except.bind]
  · intro kvs b htl hhc
    simp [keepE, hhc, htl, Except.bind]
  · intro kvs b h1 h2 h3 h4 hhc
    simp [keepE, hhc, h1, h2, h3, h4, Except.bind]

/-- Witness for C5: the AAPL stock item (no crypto marker) is kept. -/
theorem normalizer_filter_correctness_witness : keepE aaplItem = .ok true :=
  normalizer_filter_correctness.1 aaplItem false (Or.inr (Or.inr rfl)) rfl

/-! ## C1 — retry budget (corrected: three delays, not two) -/

theorem searchLoop_fail_step (outcomes : Nat → AttemptResult) (jit : Nat → ℚ)
    (rem idx : Nat) (last : Option String) (delays : List ℚ)
    (h : retryable (outcomes idx)) :
    searchLoop outcomes jit (rem + 1) idx last delays =
      ((searchLoop outcomes jit rem (idx + 1) (some (diagOf (outcomes idx)))
          (delays ++ [jit idx])).1,
       (searchLoop outcomes jit rem (idx + 1) (some (diagOf (outcomes idx)))
          (delays ++ [jit idx])).2.1 + 1,
       (searchLoop outcomes jit rem (idx + 1) (some (diagOf (outcomes idx)))
          (delays ++ [jit idx])).2.2) := by
  cases ho : outcomes idx with
  | response r =>
    have h' : retryable (.response r) := ho ▸ h
    have hs : isSuccessStatus r.status = false := Bool.eq_false_iff.mpr h'
    simp [searchLoop, ho, hs, diagOf]
  | exc m => simp [searchLoop, ho, diagOf]

/-- C1 counterexample: with `max_attempts = 3` and every attempt a Retryable
Failure (HTTP 500), the code performs 3 attempts and sleeps **3** jitter
delays — one after every failed attempt, including the final one before the
typed error is raised — so the claimed count of exactly 2 delays is false. -/
theorem searchExecutor_retry_budget_counterexample :
    retryable fail500 ∧
    (tradingviewSymbolSearch constFailOutcomes constJitter 3).1 =
      .error "TradingView search failed after retries: 500 error body" ∧
    (tradingviewSymbolSearch constFailOutcomes constJitter 3).2.1 = 3 ∧
    (tradingviewSymbolSearch constFailOutcomes constJitter 3).2.2 = [3/10, 3/10, 3/10] ∧
    (tradingviewSymbolSearch constFailOutcomes constJitter 3).2.2.length ≠ 2 := by
  exact ⟨by decide, rfl, rfl, rfl, by decide⟩

/-- C1 amended: with `max_attempts = 3` and all three attempts Retryable
Failures, the Executor raises exactly one typed Exhausted-retries error
carrying the last observed diagnostic, after exactly 3 attempts and exactly
**3** jitter delays (one after each failed attempt, including the last),
each delay drawn by `random.uniform(0.25, 0.8)` and hence within
[250 ms, 800 ms]. -/
theorem searchExecutor_retry_budget_amended (outcomes : Nat → AttemptResult)
    (jit : Nat → ℚ)
    (hfail : ∀ i, i < 3 → retryable (outcomes i))
    (hjit : ∀ i, 1/4 ≤ jit i ∧ jit i ≤ 4/5) :
    tradingviewSymbolSearch outcomes jit 3 =
      (.error ("TradingView search failed after retries: " ++ diagOf (outcomes 2)), 3,
        [jit 0, jit 1, jit 2]) ∧
    ∀ d ∈ [jit 0, jit 1, jit 2], 1/4 ≤ d ∧ d ≤ 4/5 := by
  constructor
  · have e0 := searchLoop_fail_step outcomes jit 2 0 none [] (hfail 0 (by omega))
    have e1 := searchLoop_fail_step outcomes jit 1 1 (some (diagOf (outcomes 0)))
      ([] ++ [jit 0]) (hfail 1 (by omega))
    have e2 := searchLoop_fail_step outcomes jit 0 2 (some (diagOf (outcomes 1)))
      ([] ++ [jit 0] ++ [jit 1]) (hfail 2 (by omega))
    unfold tradingviewSymbolSearch
    rw [e0, e1, e2]
    simp [searchLoop, fstrOpt]
  · intro d hd
    simp only [List.mem_cons, List.mem_singleton, List.not_mem_nil, or_false] at hd
    rcases hd with rfl | rfl | rfl <;> exact hjit _

/-- Witness for C1 (amended) at the concrete all-500 outcome stream. -/
theorem searchExecutor_retry_budget_amended_witness :
    tradingviewSymbolSearch constFailOutcomes constJitter 3 =
      (.error ("TradingView search failed after retries: " ++ diagOf (constFailOutcomes 2)), 3,
        [constJitter 0, constJitter 1, constJitter 2]) :=
  (searchExecutor_retry_budget_amended constFailOutcomes constJitter
    (fun _ _ => (by decide : retryable fail500))
    (fun _ => by constructor <;> norm_num [constJitter])).1

/-! ## C6 — deduplication keeps first occurrences -/

/-- Python `==` (our `jbeq`) agrees with propositional equality whenever the
left value is hashable (the only values the dedupe set ever compares). -/
theorem jbeq_eq_of_hashable (s t : JVal) (hs : hashable s = true) :
    jbeq s t = true ↔ s = t := by
  cases s <;> cases t <;> simp_all [jbeq, hashable]

theorem dedupeGo_eq_firstOccGo (l : List (List (String × JVal)))
    (pre : List (List (String × JVal))) (seen : List JVal)
    (acc : List (List (String × JVal)))
    (hl : ∀ it ∈ l, truthy (symOf it) = true → hashable (symOf it) = true)
    (hinv : ∀ s, hashable s = true →
      seen.contains s = pre.any fun p => truthy (symOf p) && jbeq s (symOf p)) :
    dedupeGo l seen acc = .ok (acc.reverse ++ firstOccGo pre l) := by
  induction l generalizing pre seen acc with
  | nil => simp [dedupeGo, firstOccGo]
  | cons it rest ih =>
    have hlrest : ∀ x ∈ rest, truthy (symOf x) = true → hashable (symOf x) = true :=
      fun x hx => hl x (List.mem_cons_of_mem _ hx)
    by_cases ht : truthy (symOf it) = true
    · have hh : hashable (symOf it) = true := hl it (List.mem_cons_self _ _) ht
      have hc := hinv (symOf it) hh
      by_cases hmem : seen.contains (symOf it) = true
      · have hany : (pre.any fun p => truthy (symOf p) && jbeq (symOf it) (symOf p)) = true :=
          hc ▸ hmem
        simp only [dedupeGo, firstOccGo, ht, hh, hmem, hany, Bool.not_true, Bool.and_false,
          Bool.false_eq_true, if_false, if_true]
        refine ih (pre ++ [it]) seen acc hlrest ?_
        intro s hs
        rw [List.any_append]
        simp only [List.any_cons, List.any_nil, Bool.or_false]
        by_cases hj : jbeq s (symOf it) = true
        · have hse : s = symOf it := (jbeq_eq_of_hashable s _ hs).mp hj
          subst hse
          simp [hmem, ht, hj]
        · have hj' : jbeq s (symOf it) = false := Bool.eq_false_iff.mpr hj
          simp [hj', hinv s hs]
      · have hmem' : seen.contains (symOf it) = false := Bool.eq_false_iff.mpr hmem
        have hany' : (pre.any fun p => truthy (symOf p) && jbeq (symOf it) (symOf p)) = false :=
          hc ▸ hmem'
        simp only [dedupeGo, firstOccGo, ht, hh, hmem', hany', Bool.not_false, Bool.and_true,
          Bool.false_eq_true, if_false, if_true]
        rw [ih (pre ++ [it]) (symOf it :: seen) (it :: acc) hlrest ?inv, List.reverse_cons,
          List.append_assoc, List.singleton_append]
        case inv =>
          intro s hs
          rw [List.any_append]
          simp only [List.any_cons, List.any_nil, Bool.or_false]
          show (Bool.or (jbeq s (symOf it)) (seen.contains s)) = _
          rw [hinv s hs, ht]
          simp [Bool.or_comm]
    · have ht' : truthy (symOf it) = false := Bool.eq_false_iff.mpr ht
      simp only [dedupeGo, firstOccGo, ht', Bool.false_and, Bool.false_eq_true, if_false]
      refine ih (pre ++ [it]) seen acc hlrest ?_
      intro s hs
      rw [List.any_append]
      simp only [List.any_cons, List.any_nil, Bool.or_false, ht', Bool.false_and]
      simp [hinv s hs]

theorem firstOccGo_sublist (l pre : List (List (String × JVal))) :
    List.Sublist (firstOccGo pre l) l := by
  induction l generalizing pre with
  | nil => simp [firstOccGo]
  | cons it rest ih =>
    rw [firstOccGo]
    split
    · exact List.Sublist.cons₂ it (ih (pre ++ [it]))
    · exact List.Sublist.cons it (ih (pre ++ [it]))

theorem firstOccGo_truthy (l pre : List (List (String × JVal)))
    (it : List (String × JVal)) (hmem : it ∈ firstOccGo pre l) :
    truthy (symOf it) = true := by
  induction l generalizing pre with
  | nil => simp [firstOccGo] at hmem
  | cons x rest ih =>
    rw [firstOccGo] at hmem
    split at hmem
    · rcases List.mem_cons.mp hmem with rfl | hmem'
      · rename_i hcond
        exact (Bool.and_eq_true _ _).mp hcond |>.1
      · exact ih _ hmem'
    · exact ih _ hmem

/-- C6: deduplication walks the filtered items in original order and keeps
exactly the first occurrence of each distinct (truthy) symbol value; the
surviving list is a sublist of the input (order preserved); every survivor
has a symbol value (items with none are dropped); and of two items sharing a
symbol but differing elsewhere, only the first survives. -/
theorem normalizer_dedup_first_occurrence :
    (∀ l, (∀ it ∈ l, truthy (symOf it) = true → hashable (symOf it) = true) →
      dedupeE l = .ok (firstOccurrences l)) ∧
    (∀ pre l, List.Sublist (firstOccGo pre l) l) ∧
    (∀ l it, it ∈ firstOccurrences l → truthy (symOf it) = true) ∧
    dedupeE [dupFirstItem, dupSecondItem] = .ok [dupFirstItem] := by
  refine ⟨fun l hl => ?_, fun pre l => firstOccGo_sublist l pre,
    fun l it h => firstOccGo_truthy l [] it h, rfl⟩
  exact dedupeGo_eq_firstOccGo l [] [] [] hl (by intro s _; rfl)

/-- Witness for C6: a run containing a duplicate symbol and a symbol-less
item keeps only the first occurrence. -/
theorem normalizer_dedup_first_occurrence_witness :
    dedupeE [dupFirstItem, noSymItem, dupSecondItem] = .ok [dupFirstItem] :=
  normalizer_dedup_first_occurrence.1 [dupFirstItem, noSymItem, dupSecondItem]
    (by intro it hit _; fin_cases hit <;> rfl)

/-! ## C10 — user-agent / client-hint safety -/

theorem uaSafe_spec (ua : String) (h : uaSafe ua = true) :
    (containsSubstr ua "Windows" = true ∨ containsSubstr ua "Macintosh" = true) ∧
    (∃ maj, chromeMajor ua = some maj ∧
      maj ∈ (["120", "119", "118", "117", "116", "115"] : List String)) ∧
    ((inferClientHints ua).1 = "\"Windows\"" ∨ (inferClientHints ua).1 = "\"macOS\"") := by
  unfold uaSafe at h
  rw [Bool.and_eq_true, Bool.and_eq_true] at h
  obtain ⟨⟨h1, h2⟩, h3⟩ := h
  refine ⟨by simpa using h1, ?_, by simpa using h3⟩
  cases hm : chromeMajor ua with
  | none => rw [hm] at h2; exact absurd h2 (by simp)
  | some maj =>
    rw [hm] at h2
    exact ⟨maj, rfl, by simpa using h2⟩

theorem uaSafe_generate (loc : BFLoc) (tzOff : String → String) (r : List Nat) :
    uaSafe (BrowserFingerprint.generate loc tzOff r).1.userAgent = true := by
  simp only [BrowserFingerprint.generate, pick]
  have hos : r.headD 0 % OS_CONFIGS.length = 0 ∨ r.headD 0 % OS_CONFIGS.length = 1 := by
    have e : OS_CONFIGS.length = 2 := rfl
    rw [e]
    omega
  have hc : r.tail.tail.headD 0 % CHROME_VERSIONS.length = 0 ∨
      r.tail.tail.headD 0 % CHROME_VERSIONS.length = 1 ∨
      r.tail.tail.headD 0 % CHROME_VERSIONS.length = 2 ∨
      r.tail.tail.headD 0 % CHROME_VERSIONS.length = 3 ∨
      r.tail.tail.headD 0 % CHROME_VERSIONS.length = 4 ∨
      r.tail.tail.headD 0 % CHROME_VERSIONS.length = 5 := by
    have e : CHROME_VERSIONS.length = 6 := rfl
    rw [e]
    omega
  rcases hos with h1 | h1 <;> rw [h1]
  · have hv : r.tail.headD 0 % (OS_CONFIGS.getD 0 defaultOsConfig).versions.length = 0 ∨
        r.tail.headD 0 % (OS_CONFIGS.getD 0 defaultOsConfig).versions.length = 1 := by
      have e : (OS_CONFIGS.getD 0 defaultOsConfig).versions.length = 2 := rfl
      rw [e]
      omega
    rcases hv with h2 | h2 <;> rw [h2] <;>
      rcases hc with h3 | h3 | h3 | h3 | h3 | h3 <;> rw [h3] <;> decide
  · have hv : r.tail.headD 0 % (OS_CONFIGS.getD 1 defaultOsConfig).versions.length = 0 ∨
        r.tail.headD 0 % (OS_CONFIGS.getD 1 defaultOsConfig).versions.length = 1 ∨
        r.tail.headD 0 % (OS_CONFIGS.getD 1 defaultOsConfig).versions.length = 2 ∨
        r.tail.headD 0 % (OS_CONFIGS.getD 1 defaultOsConfig).versions.length = 3 := by
      have e : (OS_CONFIGS.getD 1 defaultOsConfig).versions.length = 4 := rfl
      rw [e]
      omega
    rcases hv with h2 | h2 | h2 | h2 <;> rw [h2] <;>
      rcases hc with h3 | h3 | h3 | h3 | h3 | h3 <;> rw [h3] <;> decide

/-- C10: every generated user-agent contains `"Windows"` or `"Macintosh"` and
a `Chrome/<major>` marker with one of the six configured majors, so in
client-hint derivation the Linux platform branch and the `"120"` fallback are
unreachable and the derived platform token is always `"Windows"` or
`"macOS"`. -/
theorem ua_platform_chrome_safety (loc : BFLoc) (tzOff : String → String) (r : List Nat) :
    (containsSubstr (BrowserFingerprint.generate loc tzOff r).1.userAgent "Windows" = true ∨
     containsSubstr (BrowserFingerprint.generate loc tzOff r).1.userAgent "Macintosh" = true) ∧
    (∃ maj, chromeMajor (BrowserFingerprint.generate loc tzOff r).1.userAgent = some maj ∧
      maj ∈ (["120", "119", "118", "117", "116", "115"] : List String)) ∧
    ((inferClientHints (BrowserFingerprint.generate loc tzOff r).1.userAgent).1 = "\"Windows\"" ∨
     (inferClientHints (BrowserFingerprint.generate loc tzOff r).1.userAgent).1 = "\"macOS\"") :=
  uaSafe_spec _ (uaSafe_generate loc tzOff r)

/-! ## C8 — fingerprint timezone (confirmed part) and locale (refuted part) -/

theorem getGeographicViewport_snd (loc : BFLoc) (r : List Nat) :
    (getGeographicViewport loc r).2 = r.tail := by
  unfold getGeographicViewport pick
  split
  · rfl
  · split
    · rfl
    · rfl

/-- C8 counterexample: for state `"ca"` (mapped locale `en-CA`) there is a
random draw for which the generated fingerprint's Accept-Language header
leads with `en-GB`: the locale lookup's result appears nowhere in the
fingerprint, so fingerprint language data can disagree with the region's
mapped locale. -/
theorem fingerprint_locale_counterexample :
    localeFor "ca" = "en-CA" ∧
    primaryLangTag
      (BrowserFingerprint.generate ⟨"ca", "US"⟩ (fun _ => "-0700") []).1.acceptLanguage =
      "en-GB" ∧
    primaryLangTag
      (BrowserFingerprint.generate ⟨"ca", "US"⟩ (fun _ => "-0700") []).1.acceptLanguage ≠
      localeFor "ca" :=
  ⟨rfl, rfl, by decide⟩

/-- C8 amended: the fingerprint's timezone hint (and timezone id) equals the
timezone table's mapped value for a mapped region and `America/Chicago`
otherwise; the locale table is consulted (`localeFor`) but its result is not
placed in the fingerprint — the Accept-Language header is a q-weighted
shuffle of a fixed tag list that does not depend on the input Location. -/
theorem fingerprint_timezone_amended (loc : BFLoc) (tzOff : String → String) (r : List Nat) :
    (∀ tz, TIMEZONE_MAP.lookup (pyLower loc.state) = some tz →
      (BrowserFingerprint.generate loc tzOff r).1.secChUaTimezone = tz ∧
      (BrowserFingerprint.generate loc tzOff r).1.timezoneId = tz) ∧
    (TIMEZONE_MAP.lookup (pyLower loc.state) = none →
      (BrowserFingerprint.generate loc tzOff r).1.secChUaTimezone = "America/Chicago" ∧
      (BrowserFingerprint.generate loc tzOff r).1.timezoneId = "America/Chicago") ∧
    (∀ loc' : BFLoc, (BrowserFingerprint.generate loc tzOff r).1.acceptLanguage =
      (BrowserFingerprint.generate loc' tzOff r).1.acceptLanguage) := by
  refine ⟨?_, ?_, ?_⟩
  · intro tz h
    constructor <;> simp [BrowserFingerprint.generate, h]
  · intro h
    constructor <;> simp [BrowserFingerprint.generate, h]
  · intro loc'
    simp [BrowserFingerprint.generate, getGeographicViewport_snd]

/-- Witness for C8 (amended) at the mapped state `"ny"`. -/
theorem fingerprint_timezone_amended_witness :
    (BrowserFingerprint.generate ⟨"ny", "US"⟩ (fun _ => "-0500") []).1.secChUaTimezone =
      "America/New_York" :=
  ((fingerprint_timezone_amended ⟨"ny", "US"⟩ (fun _ => "-0500") []).1
    "America/New_York" rfl).1

/-! ## C4 — randomized selection never repeats before exhaustion -/

theorem containsStr_iff (l : List String) (x : String) : l.contains x = true ↔ x ∈ l := by
  induction l with
  | nil => simp [List.contains, List.elem]
  | cons b bs ih =>
    simp only [List.contains, List.elem] at ih ⊢
    cases h : x == b
    · simp only [h]
      rw [ih]
      constructor
      · exact List.mem_cons_of_mem _
      · intro hm
        rcases List.mem_cons.mp hm with rfl | hm'
        · simp at h
        · exact hm'
    · have : x = b := by simpa using h
      simp [this]

theorem filterLen_pos {α : Type} (l : List α) (h : l.isEmpty = false) : 0 < l.length := by
  cases l with
  | nil => simp at h
  | cons a as => simp

theorem mem_addStr (s : List String) (x y : String) (h : y ∈ addStr s x) :
    y = x ∨ y ∈ s := by
  unfold addStr at h
  split at h
  · exact Or.inr h
  · exact List.mem_cons.mp h

theorem self_mem_addStr (s : List String) (x : String) : x ∈ addStr s x := by
  unfold addStr
  split
  · exact (containsStr_iff s x).mp (by assumption)
  · exact List.mem_cons_self _ _

theorem subset_addStr (s : List String) (x : String) : s ⊆ addStr s x := by
  unfold addStr
  split
  · exact fun _ h => h
  · exact fun _ h => List.mem_cons_of_mem _ h

theorem getRandom_loc_mem (cat : List PLoc) (choice : Nat) (s : PoolSt) (hne : cat ≠ []) :
    (getRandomLocation cat choice s).1 ∈ cat := by
  simp only [getRandomLocation]
  split
  · have hpos : 0 < cat.length := List.length_pos.mpr hne
    have hlt : choice % cat.length < cat.length := Nat.mod_lt _ hpos
    rw [List.getD_eq_getElem _ _ hlt]
    exact List.getElem_mem hlt
  · next hc =>
    have hb : (cat.filter fun loc => !(s.usedLocations.contains (locStr loc))).isEmpty
        = false := Bool.eq_false_iff.mpr hc
    have hlt := Nat.mod_lt choice (filterLen_pos _ hb)
    rw [List.getD_eq_getElem _ _ hlt]
    exact List.mem_of_mem_filter (List.getElem_mem hlt)

theorem getRandom_not_used (cat : List PLoc) (choice : Nat) (s : PoolSt)
    (h : (getRandomLocation cat choice s).2.2 = false) :
    s.usedLocations.contains (locStr (getRandomLocation cat choice s).1) = false := by
  have h' : (cat.filter fun loc => !(s.usedLocations.contains (locStr loc))).isEmpty
      = false := h
  simp only [getRandomLocation]
  rw [if_neg (by simp only [h']; decide)]
  have hlt := Nat.mod_lt choice (filterLen_pos _ h')
  rw [List.getD_eq_getElem _ _ hlt]
  have hp := List.of_mem_filter (List.getElem_mem hlt)
  simpa using hp

theorem getRandom_reset_iff (cat : List PLoc) (choice : Nat) (s : PoolSt) :
    (getRandomLocation cat choice s).2.2 = true ↔
      ∀ loc ∈ cat, s.usedLocations.contains (locStr loc) = true := by
  show (cat.filter fun loc => !(s.usedLocations.contains (locStr loc))).isEmpty = true ↔ _
  rw [List.isEmpty_iff, List.filter_eq_nil_iff]
  constructor
  · intro h loc hl
    have := h loc hl
    simpa using this
  · intro h loc hl
    simp only [h loc hl]
    decide

theorem getRandom_used_after (cat : List PLoc) (choice : Nat) (s : PoolSt) :
    (getRandomLocation cat choice s).2.1.usedLocations =
      addStr (if (getRandomLocation cat choice s).2.2 then [] else s.usedLocations)
        (locStr (getRandomLocation cat choice s).1) := rfl

theorem retLoc_mem_used_after (cat : List PLoc) (choice : Nat → Nat) (n : Nat) :
    locStr (nthRandLocation cat choice n) ∈ (randIter cat choice (n + 1)).usedLocations := by
  show locStr (nthRandLocation cat choice n) ∈
    (getRandomLocation cat (choice n) (randIter cat choice n)).2.1.usedLocations
  rw [getRandom_used_after]
  exact self_mem_addStr _ _

theorem used_subset_step (cat : List PLoc) (choice : Nat → Nat) (n : Nat)
    (h : resetAt cat choice n = false) :
    (randIter cat choice n).usedLocations ⊆ (randIter cat choice (n + 1)).usedLocations := by
  show _ ⊆ (getRandomLocation cat (choice n) (randIter cat choice n)).2.1.usedLocations
  rw [getRandom_used_after]
  have hf : (getRandomLocation cat (choice n) (randIter cat choice n)).2.2 = false := h
  rw [hf]
  simpa using subset_addStr (randIter cat choice n).usedLocations _

theorem used_from_returns (cat : List PLoc) (choice : Nat → Nat) (n : Nat) :
    ∀ x ∈ (randIter cat choice n).usedLocations,
      ∃ m, m < n ∧ locStr (nthRandLocation cat choice m) = x := by
  induction n with
  | zero => intro x hx; simp [randIter, freshPool] at hx
  | succ k ih =>
    intro x hx
    have hx' : x ∈ (getRandomLocation cat (choice k) (randIter cat choice k)).2.1.usedLocations :=
      hx
    rw [getRandom_used_after] at hx'
    rcases mem_addStr _ _ _ hx' with rfl | hmem
    · exact ⟨k, Nat.lt_succ_self _, rfl⟩
    · split at hmem
      · simp at hmem
      · obtain ⟨m, hm, he⟩ := ih x hmem
        exact ⟨m, Nat.lt_succ_of_lt hm, he⟩

/-- C4: (1) a returned canonical location string is never repeated while no
clear-and-reset intervenes; (2) the clearing branch runs at a call exactly
when every catalog location's canonical string is in the recently-used set —
and each such string was indeed returned by an earlier call — after which
the recently-used set holds just the newly returned string; (3) every call
returns a member of the catalog (the operation never fails). -/
theorem proxySelector_random_no_repeat (cat : List PLoc) (choice : Nat → Nat)
    (hne : cat ≠ []) :
    (∀ i j, i < j → (∀ k, i < k → k ≤ j → resetAt cat choice k = false) →
      locStr (nthRandLocation cat choice i) ≠ locStr (nthRandLocation cat choice j)) ∧
    (∀ k, resetAt cat choice k = true →
      (∀ loc ∈ cat, (randIter cat choice k).usedLocations.contains (locStr loc) = true ∧
        ∃ m, m < k ∧ locStr (nthRandLocation cat choice m) = locStr loc) ∧
      (randIter cat choice (k + 1)).usedLocations = [locStr (nthRandLocation cat choice k)]) ∧
    (∀ k, nthRandLocation cat choice k ∈ cat) := by
  refine ⟨?_, ?_, fun k => getRandom_loc_mem cat (choice k) (randIter cat choice k) hne⟩
  · intro i j hij hnr heq
    have h1 : locStr (nthRandLocation cat choice i) ∈
        (randIter cat choice (i + 1)).usedLocations := retLoc_mem_used_after cat choice i
    have h2 : ∀ m, i + 1 ≤ m → m ≤ j →
        locStr (nthRandLocation cat choice i) ∈ (randIter cat choice m).usedLocations := by
      intro m
      induction m with
      | zero => intro hm1 _; omega
      | succ t iht =>
        intro hm1 hmj
        rcases Nat.lt_or_ge i t with hit | hit
        · exact used_subset_step cat choice t (hnr t hit (by omega))
            (iht (by omega) (by omega))
        · have : t = i := by omega
          subst this
          exact h1
    have h3 := h2 j (by omega) le_rfl
    have h4 : (randIter cat choice j).usedLocations.contains
        (locStr (nthRandLocation cat choice j)) = false :=
      getRandom_not_used cat (choice j) (randIter cat choice j)
        (hnr j (by omega) le_rfl)
    rw [← heq] at h4
    have hc := (containsStr_iff _ _).mpr h3
    rw [h4] at hc
    exact Bool.false_ne_true hc
  · intro k hk
    constructor
    · intro loc hl
      have hcov := (getRandom_reset_iff cat (choice k) (randIter cat choice k)).mp hk loc hl
      exact ⟨hcov, used_from_returns cat choice k _ ((containsStr_iff _ _).mp hcov)⟩
    · show (getRandomLocation cat (choice k) (randIter cat choice k)).2.1.usedLocations = _
      rw [getRandom_used_after]
      have ht : (getRandomLocation cat (choice k) (randIter cat choice k)).2.2 = true := hk
      rw [ht, if_pos rfl]
      rfl

/-- Witness for C4: on the concrete catalog with the constant-0 picker, the
first two calls return different canonical strings. -/
theorem proxySelector_random_no_repeat_witness :
    locStr (nthRandLocation LOCATIONS (fun _ => 0) 0) ≠
      locStr (nthRandLocation LOCATIONS (fun _ => 0) 1) :=
  (proxySelector_random_no_repeat LOCATIONS (fun _ => 0) (by decide)).1 0 1
    (by omega)
    (by
      intro k hk1 hk2
      have hk : k = 1 := by omega
      subst hk
      decide)

/-! ## C2 — idempotence of normalization (corrected) -/

theorem keepE_ok_of_allowed (kvs : List (String × JVal))
    (htl : typeLower kvs = "index" ∨ typeLower kvs = "forex" ∨ typeLower kvs = "stock")
    (hhc : hasCryptoE kvs = .ok false) : keepE kvs = .ok true := by
  rcases htl with h | h | h <;> simp [keepE, hhc, h, Except.bind]

theorem filterKeptE_normalized (l : List JVal)
    (h : ∀ x ∈ l, ∃ kvs, x = .obj kvs ∧ normalizedItem kvs) :
    ∃ ks, filterKeptE l = .ok ks ∧ l = ks.map JVal.obj ∧ ∀ kvs ∈ ks, normalizedItem kvs := by
  induction l with
  | nil => exact ⟨[], rfl, rfl, by simp⟩
  | cons x rest ih =>
    obtain ⟨kvs, rfl, hni⟩ := h x (List.mem_cons_self _ _)
    obtain ⟨ks, hks, hrest, hall⟩ := ih fun y hy => h y (List.mem_cons_of_mem _ hy)
    have hkeep : keepE kvs = .ok true := keepE_ok_of_allowed kvs hni.1 hni.2.1
    refine ⟨kvs :: ks, ?_, by simp [hrest], ?_⟩
    · simp only [filterKeptE, hkeep, hks]
      rfl
    · intro k hk
      rcases List.mem_cons.mp hk with rfl | hk'
      · exact hni
      · exact hall k hk'

theorem firstOccGo_id (ks : List (List (String × JVal)))
    (pre : List (List (String × JVal)))
    (htr : ∀ kvs ∈ ks, truthy (symOf kvs) = true)
    (hh : ∀ kvs ∈ ks, hashable (symOf kvs) = true)
    (hnd : (ks.map symOf).Nodup)
    (hpre : ∀ p ∈ pre, ∀ kvs ∈ ks,
      (truthy (symOf p) && jbeq (symOf kvs) (symOf p)) = false) :
    firstOccGo pre ks = ks := by
  revert pre htr hh hnd hpre
  induction ks with
  | nil => intro pre _ _ _ _; rfl
  | cons it rest ih =>
    intro pre htr hh hnd hpre
    rw [List.map_cons] at hnd
    obtain ⟨hnotin, hndr⟩ := List.nodup_cons.mp hnd
    rw [firstOccGo]
    have hcond : (pre.any fun p => truthy (symOf p) && jbeq (symOf it) (symOf p)) = false := by
      rw [List.any_eq_false]
      exact fun p hp => by simp [hpre p hp it (List.mem_cons_self _ _)]
    rw [if_pos (by simp [htr it (List.mem_cons_self _ _), hcond])]
    congr 1
    refine ih (pre ++ [it]) (fun kvs hk => htr kvs (List.mem_cons_of_mem _ hk))
      (fun kvs hk => hh kvs (List.mem_cons_of_mem _ hk)) hndr ?_
    intro p hp kvs hk
    rcases List.mem_append.mp hp with hp' | hp'
    · exact hpre p hp' kvs (List.mem_cons_of_mem _ hk)
    · have hpi : p = it := by simpa using hp'
      subst hpi
      by_cases hj : jbeq (symOf kvs) (symOf p) = true
      · have he : symOf kvs = symOf p :=
          (jbeq_eq_of_hashable _ _ (hh kvs (List.mem_cons_of_mem _ hk))).mp hj
        have hmem : symOf p ∈ rest.map symOf := he ▸ List.mem_map_of_mem symOf hk
        exact absurd hmem hnotin
      · simp [Bool.eq_false_iff.mpr hj]

theorem stripE_id (kvs : List (String × JVal)) (hni : normalizedItem kvs) :
    stripE kvs = .ok kvs := by
  have hcl : (kvs.filter fun kv => !(removeKeys.contains kv.1)) = kvs := by
    rw [List.filter_eq_self]
    intro kv hkv
    have hn := hni.2.2.2.2 kv hkv
    simpa using hn
  have hns : isSpotType (jget kvs "type") = false := by
    cases hg : jget kvs "type" with
    | none => rfl
    | some v =>
      cases v with
      | str s =>
        show (s == "spot") = false
        by_cases hs : s = "spot"
        · subst hs
          have htl : typeLower kvs = "spot" := by
            unfold typeLower
            rw [hg]
            rfl
          rcases hni.1 with h | h | h <;> rw [htl] at h <;> exact absurd h (by decide)
        · simpa using hs
      | null => rfl
      | bool b => rfl
      | num n => rfl
      | arr a => rfl
      | obj o => rfl
  unfold stripE
  rw [hcl, if_neg (by simp [hns])]
  rfl

theorem except_ok_bind {α β : Type} (a : α) (f : α → Except Unit β) :
    (Except.ok a : Except Unit α) >>= f = f a := rfl

theorem mapM_stripE_id (ks : List (List (String × JVal)))
    (h : ∀ kvs ∈ ks, stripE kvs = .ok kvs) : ks.mapM stripE = .ok ks := by
  induction ks with
  | nil => rfl
  | cons k rest ih =>
    rw [List.mapM_cons, h k (List.mem_cons_self _ _),
      ih fun x hx => h x (List.mem_cons_of_mem _ hx)]
    rfl

/-- C2 counterexample: `[{symbol:"BTC", type:"crypto", typespecs:["crypto"]}]`
is itself a normalizer output (the normalizer's rewrite of the BTC spot item)
and satisfies the claim's normalized-ness conditions — it has no spot item,
no provenance field, no duplicate symbol — yet re-normalizing it yields `[]`,
not a byte-identical payload: the filter discards the very `"crypto"`
category the rewrite produces. -/
theorem normalizer_idempotence_counterexample :
    typeLower btcCryptoItem ≠ "spot" ∧
    (btcCryptoItem.all fun kv => !(removeKeys.contains kv.1)) = true ∧
    normalizePayload (.arr [.obj btcItem]) [] "application/json" =
      .ok (asciiBytes (dumps (.arr [.obj btcCryptoItem])), "application/json") ∧
    normalizePayload (.arr [.obj btcCryptoItem]) [] "application/json" =
      .ok (asciiBytes (dumps (.arr ([] : List JVal))), "application/json") ∧
    asciiBytes (dumps (.arr ([] : List JVal))) ≠
      asciiBytes (dumps (.arr [.obj btcCryptoItem])) :=
  ⟨by decide, rfl, rfl, rfl, by decide⟩

/-- The whole filter→dedupe→strip pipeline returns a normalized item
sequence unchanged. -/
theorem pipelineE_normalized (l : List JVal) (h : normalizedPayloadL l) :
    ∃ ks, pipelineE l = .ok ks ∧ ks.map JVal.obj = l := by
  obtain ⟨hitems, hnd⟩ := h
  obtain ⟨ks, hks, hleq, hall⟩ := filterKeptE_normalized l hitems
  subst hleq
  have hnd' : (ks.map symOf).Nodup := by
    have he : (ks.map JVal.obj).map itemSym = ks.map symOf := by
      rw [List.map_map]
      rfl
    rwa [he] at hnd
  have hfo : firstOccGo [] ks = ks :=
    firstOccGo_id ks [] (fun kvs hk => (hall kvs hk).2.2.1)
      (fun kvs hk => (hall kvs hk).2.2.2.1) hnd' (by simp)
  have hdd : dedupeE ks = .ok ks := by
    have h1 := dedupeGo_eq_firstOccGo ks [] [] []
      (fun it hit _ => (hall it hit).2.2.2.1) (fun s _ => rfl)
    unfold dedupeE
    rw [h1, hfo]
    rfl
  have hms : ks.mapM stripE = .ok ks :=
    mapM_stripE_id ks fun kvs hk => stripE_id kvs (hall kvs hk)
  refine ⟨ks, ?_, rfl⟩
  simp only [pipelineE, hks, except_ok_bind, hdd, hms]

/-- Writing back the value a key already holds leaves the dict unchanged. -/
theorem setKey_self (kvs : List (String × JVal)) (k : String) (v : JVal)
    (h : jget kvs k = some v) : setKey kvs k v = kvs := by
  induction kvs with
  | nil => simp [jget, List.find?] at h
  | cons kv rest ih =>
    obtain ⟨k1, v1⟩ := kv
    by_cases hk : k1 = k
    · subst hk
      have hj : jget ((k1, v1) :: rest) k1 = some v1 := by
        unfold jget
        rw [List.find?_cons_of_pos _ (by simp)]
      rw [hj] at h
      obtain rfl : v1 = v := Option.some.inj h
      simp [setKey]
    · have hj : jget ((k1, v1) :: rest) k = jget rest k := by
        unfold jget
        rw [List.find?_cons_of_neg _ (by simp [hk])]
      rw [hj] at h
      unfold setKey
      rw [if_neg hk, ih h]

/-- C2 amended: on an already-normalized payload of either recognized shape —
a bare list, or a mapping whose `symbols` value is such a list — the
normalizer returns exactly the serialization of the input payload, with even
the key order preserved.  Already-normalized means every item is a mapping
whose category is (case-insensitively) one of index/forex/stock with a
truthy hashable symbol value, no crypto sub-type markers, no provenance-only
fields, and no duplicate symbols.  (Payloads with items of any other
category — including the `"crypto"` category the normalizer itself emits —
are not fixed points; see the counterexample.) -/
theorem normalizer_idempotence_amended :
    (∀ (l : List JVal) (raw : List Nat) (ct : String), normalizedPayloadL l →
      normalizePayload (.arr l) raw ct =
        .ok (asciiBytes (dumps (.arr l)), "application/json")) ∧
    (∀ (kvs : List (String × JVal)) (l : List JVal) (raw : List Nat) (ct : String),
      jget kvs "symbols" = some (.arr l) → normalizedPayloadL l →
      normalizePayload (.obj kvs) raw ct =
        .ok (asciiBytes (dumps (.obj kvs)), "application/json")) := by
  constructor
  · intro l raw ct h
    obtain ⟨ks, hp, hmap⟩ := pipelineE_normalized l h
    simp only [normalizePayload, hp, except_ok_bind]
    rw [hmap]
    rfl
  · intro kvs l raw ct hsym h
    obtain ⟨ks, hp, hmap⟩ := pipelineE_normalized l h
    simp only [normalizePayload, hsym, hp, except_ok_bind]
    rw [hmap, setKey_self kvs "symbols" (.arr l) hsym]
    rfl

/-- Witness for C2 (amended): a mapping payload carrying one normalized item
and an extra sibling field re-serializes identically. -/
theorem normalizer_idempotence_amended_witness :
    normalizePayload (.obj [("symbols", .arr [.obj aaplItem]), ("symbols_found", .num 1)])
        [] "text/html" =
      .ok (asciiBytes (dumps
        (.obj [("symbols", .arr [.obj aaplItem]), ("symbols_found", .num 1)])),
        "application/json") :=
  normalizer_idempotence_amended.2
    [("symbols", .arr [.obj aaplItem]), ("symbols_found", .num 1)]
    [.obj aaplItem] [] "text/html" rfl
    ⟨fun x hx => ⟨aaplItem, by simpa using hx,
      Or.inr (Or.inr rfl), rfl, rfl, rfl, by intro kv hkv; fin_cases hkv <;> decide⟩, by simp⟩

end TVProxy

